import Mathlib

/-!
Verification development for the lease-drop production pipeline.

The pipeline has two core components, embedded here from the Python
sources:
* the table extractor `processLeaseData` (from
  `lease_drop_core.py`, function `process_lease_data`), and
* three duplicated trend analyzers `analyzeTrendRest`,
  `analyzeTrendWrapper`, `analyzeTrendIgnition` (from `rest_api.py`,
  `lease_drop_wrapper.py` and `ignition_integration.py`).

Tables are modelled as a header (list of column names) plus rows of
cells; cell values are strings, exact rationals, or null.  Pandas /
NumPy floating-point values are modelled by exact rationals extended
with signed infinities and NaN (`EVal`), keeping the IEEE rules for
division by zero and NaN propagation that the trend analyzers rely on.
-/

namespace LeaseDrop

/-- Column names and textual cell contents, as lists of characters. -/
abbrev Str := List Char

/-- ASCII upper-casing of a single character, as Python `str.upper`
acts on the ASCII letters occurring in this report's column names. -/
def upperChar (c : Char) : Char :=
  if 'a' ≤ c ∧ c ≤ 'z' then Char.ofNat (c.toNat - 32) else c

/-- Upper-case a string (Python `str(col).upper()`). -/
def upperStr (s : Str) : Str := s.map upperChar

/-- Whether `p` is a prefix of `s` (character-exact). -/
def isPrefixCh : Str → Str → Bool
  | [], _ => true
  | _ :: _, [] => false
  | a :: as, b :: bs => a == b && isPrefixCh as bs

/-- Whether `p` occurs as a contiguous substring of `s`
(Python's `p in s`). -/
def isSubstrCh (p : Str) : Str → Bool
  | [] => isPrefixCh p []
  | c :: t => isPrefixCh p (c :: t) || isSubstrCh p t

/-- Whether the upper-cased haystack contains the (already upper-case)
needle, embedding Python's `needle in str(col).upper()`. -/
def containsUpper (needle hay : Str) : Bool :=
  isSubstrCh needle (upperStr hay)

/-- Python whitespace characters relevant to `str.strip`. -/
def isSpaceCh (c : Char) : Bool :=
  c == ' ' || c == '\t' || c == '\n' || c == '\r'

/-- Python `str.strip`: drop whitespace from both ends. -/
def stripCh (s : Str) : Str :=
  ((s.dropWhile isSpaceCh).reverse.dropWhile isSpaceCh).reverse

/-- Decimal digit value of a character, if it is a digit. -/
def digitVal (c : Char) : Option Nat :=
  if '0' ≤ c ∧ c ≤ '9' then some (c.toNat - 48) else none

/-- Read a run of decimal digits left to right, failing on any
non-digit character. -/
def natOfDigitsAux (acc : Nat) : Str → Option Nat
  | [] => some acc
  | c :: cs =>
    match digitVal c with
    | some d => natOfDigitsAux (10 * acc + d) cs
    | none => none

/-- Cell values of a parsed table: text, an exact number, or null
(pandas NaN / missing). -/
inductive CellValue where
  | str (s : Str)
  | num (q : ℚ)
  | null
deriving DecidableEq

/-- Numeric parsing of a stripped string: optional sign, decimal
integer part, optional fraction part.  This is the fragment of the
pandas `to_numeric` string parser exercised by this report layout
(plain decimal literals; scientific notation does not occur in it). -/
def parseNum (s : Str) : Option ℚ :=
  let core : Str := match s with
    | '-' :: t => t
    | '+' :: t => t
    | _ => s
  let neg : Bool := match s with
    | '-' :: _ => true
    | _ => false
  let ip := core.takeWhile (fun c => c ≠ '.')
  let rest := core.drop ip.length
  match rest with
  | [] =>
    if ip = [] then none
    else (natOfDigitsAux 0 ip).map (fun n => if neg then -(n : ℚ) else (n : ℚ))
  | _ :: fp =>
    if ip = [] ∧ fp = [] then none
    else
      match natOfDigitsAux 0 ip, natOfDigitsAux 0 fp with
      | some a, some b =>
        let v : ℚ := (a : ℚ) + (b : ℚ) / ((10 : ℚ) ^ fp.length)
        some (if neg then -v else v)
      | _, _ => none

/-- Embeds `pd.to_numeric(..., errors='coerce')` on one cell: numbers pass
through, parseable strings become numbers, everything else null. -/
def toNumeric (v : CellValue) : Option ℚ :=
  match v with
  | .num q => some q
  | .str s => parseNum (stripCh s)
  | .null => none

/-- A parsed HTML table: column names plus rows of cells; each row
lists its cells in header order. -/
structure Table where
  cols : List Str
  rows : List (List CellValue)
deriving DecidableEq

/-- Index of a column name in the header. -/
def colIdx (t : Table) (c : Str) : Option Nat :=
  t.cols.findIdx? (fun c' => c' = c)

/-- The cell of `row` under column `c` (null when the column is
absent, mirroring a missing key in a record). -/
def getCell (t : Table) (row : List CellValue) (c : Str) : CellValue :=
  match colIdx t c with
  | some i => row.getD i .null
  | none => .null

/-- A whole column of the table, in row order. -/
def column (t : Table) (c : Str) : List CellValue :=
  t.rows.map (fun r => getCell t r c)

/-! ### Production-column heuristics (`process_lease_data`, step 1) -/

/-- Rule (a): the column name contains both CRUDE and OIL
(case-insensitive). -/
def ruleCrudeOil (c : Str) : Bool :=
  containsUpper ("CRUDE".data) c && containsUpper ("OIL".data) c

/-- Rule (b): the column name contains both GROSS and BARRELS. -/
def ruleGrossBarrels (c : Str) : Bool :=
  containsUpper ("GROSS".data) c && containsUpper ("BARRELS".data) c

/-- Rule (c): the column name contains BARRELS or BBL. -/
def ruleBarrelsBbl (c : Str) : Bool :=
  containsUpper ("BARRELS".data) c || containsUpper ("BBL".data) c

/-- Numeric coercion of a whole column: the non-null values after
`to_numeric(..., errors='coerce')`, in row order. -/
def numericVals (t : Table) (c : Str) : List ℚ :=
  (column t c).filterMap toNumeric

/-- Rule (d): the numeric coercion of the column has sum strictly
greater than zero and a non-null count exceeding half the row count
(`numeric_col.sum() > 0 and numeric_col.count() > len(df) * 0.5`). -/
def ruleNumeric (t : Table) (c : Str) : Bool :=
  decide (0 < (numericVals t c).sum) &&
    decide (t.rows.length < 2 * (numericVals t c).length)

/-- The ordered fallback cascade identifying the production column on
a table, stopping at the first rule with a match
(`lease_drop_core.py` lines 458-492). -/
def findProductionCol (t : Table) : Option Str :=
  match t.cols.find? ruleCrudeOil with
  | some c => some c
  | none =>
    match t.cols.find? ruleGrossBarrels with
    | some c => some c
    | none =>
      match t.cols.find? ruleBarrelsBbl with
      | some c => some c
      | none => t.cols.find? (fun c => ruleNumeric t c)

/-- Overwrite column `c` with its numeric coercion
(`df[col] = pd.to_numeric(df[col], errors='coerce')`). -/
def setColNumeric (t : Table) (c : Str) : Table :=
  { cols := t.cols
    rows := t.rows.map (fun r =>
      match colIdx t c with
      | some i =>
        r.set i (match toNumeric (r.getD i .null) with
          | some q => .num q
          | none => .null)
      | none => r) }

/-- The production column of `t` as optional numbers, row by row
(the numericized series the statistics and filters run over). -/
def prodOpts (t : Table) (c : Str) : List (Option ℚ) :=
  (column t c).map toNumeric

/-! ### Summary statistics (`process_lease_data`, lines 494-509) -/

/-- Ascending sort of rationals (used for the median). -/
def sortQ (xs : List ℚ) : List ℚ :=
  xs.insertionSort (fun a b => a ≤ b)

/-- Summary statistics of the numericized production column.  The
source reports the standard deviation; since square roots leave ℚ,
the record stores its square `stdSq` (the sample variance), which
determines the reported value uniquely. -/
structure Stats where
  count : Nat
  mean : Option ℚ
  median : Option ℚ
  minV : Option ℚ
  maxV : Option ℚ
  stdSq : Option ℚ
deriving DecidableEq

/-- Pandas `count/mean/median/min/max/std` over a series of optional
values: all skip nulls; `std` uses the default `ddof=1` (sample,
N-1 denominator) and is null for fewer than two observations. -/
def computeStats (vals : List (Option ℚ)) : Stats :=
  let xs := vals.filterMap id
  let n := xs.length
  let m : ℚ := xs.sum / (n : ℚ)
  { count := n
    mean := if n = 0 then none else some m
    median :=
      if n = 0 then none
      else
        let s := sortQ xs
        if n % 2 = 1 then some (s.getD (n / 2) 0)
        else some ((s.getD (n / 2 - 1) 0 + s.getD (n / 2) 0) / 2)
    minV :=
      match xs with
      | [] => none
      | h :: tl => some (tl.foldl min h)
    maxV :=
      match xs with
      | [] => none
      | h :: tl => some (tl.foldl max h)
    stdSq :=
      if 2 ≤ n then
        some ((xs.map (fun x => (x - m) ^ 2)).sum / ((n : ℚ) - 1))
      else none }

/-! ### Period column resolution (`process_lease_data`, lines 511-544) -/

/-- The explicit period-column search: first column whose name
contains DATE or PERIOD (case-insensitive). -/
def findDateCol (cols : List Str) : Option Str :=
  cols.find? (fun c =>
    containsUpper ("DATE".data) c || containsUpper ("PERIOD".data) c)

/-- The marker column scanned for embedded periods. -/
def ptName : Str := "Primary Taxpayer #".data

/-- Name of the synthesized period column. -/
def periodName : Str := "Period".data

/-- The marker substring. -/
def periodMarker : Str := "Period:".data

/-- Python `str(cell)` as used on the marker column.  Only its
behaviour with respect to the substring `Period:` matters: numeric
and null cells render as decimal digits / `None` / `nan`, none of
which contain the marker, so they are mapped to marker-free text. -/
def cellToStr (v : CellValue) : Str :=
  match v with
  | .str s => s
  | .num _ => []
  | .null => "None".data

/-- Drop characters up to and including the first occurrence of `p`
in `s` (the tail Python's `s.split(p)[1]` starts from). -/
def dropThroughSub (p : Str) : Str → Str
  | [] => []
  | c :: t => if isPrefixCh p (c :: t) then (c :: t).drop p.length else dropThroughSub p t

/-- Take characters up to (excluding) the next occurrence of `p`,
completing the embedding of `s.split(p)[1]`. -/
def takeUntilSub (p : Str) : Str → Str
  | [] => []
  | c :: t => if isPrefixCh p (c :: t) then [] else c :: takeUntilSub p t

/-- Embeds `primary_taxpayer.split('Period:')[1].strip()`. -/
def extractPeriodVal (s : Str) : Str :=
  stripCh (takeUntilSub periodMarker (dropThroughSub periodMarker s))

/-- Synthesize the `Period` column: scan the marker column row by row,
updating the carried period at each `Period:` marker, and give every
row the carried value (null while no non-empty period has been seen,
matching Python's falsy test on `current_period`).  The new column is
appended to the header (`tables[0][date_col] = None` then the fill
loop, lines 524-538). -/
def synthRows (t : Table) : Option Str → List (List CellValue) → List (List CellValue)
  | _, [] => []
  | cur, r :: rs =>
    let pv := cellToStr (getCell t r ptName)
    let cur' := if isSubstrCh periodMarker pv then some (extractPeriodVal pv) else cur
    let cell : CellValue :=
      match cur' with
      | some s => if s = [] then .null else .str s
      | none => .null
    (r ++ [cell]) :: synthRows t cur' rs

/-- The table with the synthesized `Period` column appended. -/
def synthPeriod (t : Table) : Table :=
  { cols := t.cols ++ [periodName], rows := synthRows t none t.rows }

/-- The table with an all-null `Period` column appended (the state the
source leaves the table in when the marker column is absent). -/
def addNullPeriod (t : Table) : Table :=
  { cols := t.cols ++ [periodName], rows := t.rows.map (fun r => r ++ [.null]) }

/-- Embeds `tables[0].dropna(subset=[production_col])`: keep rows whose
production cell is non-null. -/
def dropNullProd (t : Table) (pc : Str) : Table :=
  { cols := t.cols
    rows := t.rows.filter (fun r => getCell t r pc ≠ .null) }

/-! ### Sorting and the positive filter (lines 546-561) -/

/-- Sort-before test on cell values.  String cells compare
lexicographically and numbers numerically, with nulls placed last
(pandas `na_position='last'`).  Mixed string/number keys make pandas
raise inside the guarded block; such tables do not occur in this
report layout and the cross-constructor branches below are never
exercised by the theorems, which restrict period keys to strings. -/
def cellLt (x y : CellValue) : Bool :=
  match x, y with
  | .null, _ => false
  | _, .null => true
  | .num a, .num b => decide (a < b)
  | .str a, .str b => decide (a < b)
  | .num _, .str _ => true
  | .str _, .num _ => false

/-- Embeds `df.sort_values(by=date_col)`: sort of the rows by the
period cell (insertion before the first strictly greater key keeps
equal keys in input order).  The source's default quicksort leaves the
order of equal keys unspecified; it is modelled as stable here, and
the period keys of this report layout are distinct. -/
def sortByDate (t : Table) (dc : Str) : Table :=
  { cols := t.cols
    rows := t.rows.insertionSort (fun r1 r2 =>
      cellLt (getCell t r2 dc) (getCell t r1 dc) = false) }

/-- Embeds `df[df[production_col] > 0]`: the rows whose numericized
production value is strictly positive (null and non-positive rows
drop out). -/
def keepPositive (t : Table) (pc : Str) : List (List CellValue) :=
  t.rows.filter (fun r =>
    match toNumeric (getCell t r pc) with
    | some q => decide (0 < q)
    | none => false)

/-- The production values of the positive rows, in order.  Every kept
row contributes exactly one value, so this list has the same length
as `keepPositive t pc` and its head/last are the `iloc[0]`/`iloc[-1]`
values the percentage change is computed from. -/
def positiveVals (t : Table) (pc : Str) : List ℚ :=
  (keepPositive t pc).filterMap (fun r => toNumeric (getCell t r pc))

/-! ### The extractor (`process_lease_data`) -/

/-- The extractor's error kinds, one per early-return message of
`process_lease_data`. -/
inductive ErrorKind where
  | noTablesFound
  | productionColumnNotFound
  | dateColumnNotFound
  | insufficientDataPoints
  | insufficientNonZeroDataPoints
deriving DecidableEq

/-- The extractor's result, mirroring the source's return tuple
`(tables, production_col, date_col, stats_df, pct_change, error)`. -/
structure ExtractResult where
  tables : List Table
  productionCol : Option Str
  dateCol : Option Str
  stats : Option Stats
  pctChange : Option ℚ
  error : Option ErrorKind
deriving DecidableEq

/-- Resolve the period column on the (already numericized) first
table: an explicit DATE/PERIOD column is used as is; otherwise, when
the marker column is present, the `Period` column is synthesized and
the null-production rows dropped; otherwise resolution fails. -/
def resolveDateTable (t1 : Table) (pc : Str) : Option (Table × Str) :=
  match findDateCol t1.cols with
  | some dc => some (t1, dc)
  | none =>
    if ptName ∈ t1.cols then
      some (dropNullProd (synthPeriod t1) pc, periodName)
    else none

/-- The trend step of the extractor (lines 546-570): require at least
two rows, sort by the period column, filter to strictly positive
production, require at least two positive rows, and compute the
first-to-last percentage change. -/
def finishAnalysis (ta : Table) (rest : List Table) (pc dc : Str)
    (stats : Stats) : ExtractResult :=
  if ta.rows.length < 2 then
    ⟨ta :: rest, some pc, some dc, some stats, none,
      some .insufficientDataPoints⟩
  else
    match positiveVals (sortByDate ta dc) pc with
    | f :: s :: rs =>
      ⟨sortByDate ta dc :: rest, some pc, some dc, some stats,
        some ((List.getLastD (s :: rs) s - f) / f * 100), none⟩
    | _ =>
      ⟨sortByDate ta dc :: rest, some pc, some dc, some stats, none,
        some .insufficientNonZeroDataPoints⟩

/-- The extractor `process_lease_data`, over the list of tables the
HTML parser produced (an HTML document without tables parses to the
empty list).  A total function: every error kind is a returned value,
never an exception. -/
def processLeaseData (tables : List Table) : ExtractResult :=
  match tables with
  | [] => ⟨[], none, none, none, none, some .noTablesFound⟩
  | t0 :: rest =>
    match findProductionCol t0 with
    | none =>
      ⟨t0 :: rest, none, none, none, none, some .productionColumnNotFound⟩
    | some pc =>
      match resolveDateTable (setColNumeric t0 pc) pc with
      | some (ta, dc) =>
        finishAnalysis ta rest pc dc (computeStats (prodOpts (setColNumeric t0 pc) pc))
      | none =>
        ⟨addNullPeriod (setColNumeric t0 pc) :: rest, some pc, none,
          some (computeStats (prodOpts (setColNumeric t0 pc) pc)), none,
          some .dateColumnNotFound⟩

/-! ### IEEE-style extended values for the trend analyzers

The trend analyzers run over pandas float64 series.  Finite values are
modelled exactly by ℚ; the special values the analyzers actually
produce — NaN from missing data and `0/0`, signed infinities from
division by zero — are explicit constructors, with the IEEE
propagation rules for the operations the analyzers perform. -/

inductive EVal where
  | fin (q : ℚ)
  | pinf
  | ninf
  | nan
deriving DecidableEq

namespace EVal

/-- IEEE subtraction on extended values. -/
def esub : EVal → EVal → EVal
  | nan, _ => nan
  | _, nan => nan
  | pinf, pinf => nan
  | pinf, _ => pinf
  | ninf, ninf => nan
  | ninf, _ => ninf
  | fin _, pinf => ninf
  | fin _, ninf => pinf
  | fin a, fin b => fin (a - b)

/-- IEEE division on extended values; division of a nonzero finite
value by zero gives a signed infinity, `0/0` gives NaN. -/
def ediv : EVal → EVal → EVal
  | nan, _ => nan
  | _, nan => nan
  | pinf, pinf => nan
  | pinf, ninf => nan
  | ninf, pinf => nan
  | ninf, ninf => nan
  | pinf, fin b => if b < 0 then ninf else pinf
  | ninf, fin b => if b < 0 then pinf else ninf
  | fin _, pinf => fin 0
  | fin _, ninf => fin 0
  | fin a, fin b =>
    if b = 0 then
      if 0 < a then pinf else if a < 0 then ninf else nan
    else fin (a / b)

/-- IEEE multiplication on extended values (`inf * 0` is NaN). -/
def emul : EVal → EVal → EVal
  | nan, _ => nan
  | _, nan => nan
  | pinf, pinf => pinf
  | pinf, ninf => ninf
  | ninf, pinf => ninf
  | ninf, ninf => pinf
  | pinf, fin b => if 0 < b then pinf else if b < 0 then ninf else nan
  | ninf, fin b => if 0 < b then ninf else if b < 0 then pinf else nan
  | fin a, pinf => if 0 < a then pinf else if a < 0 then ninf else nan
  | fin a, ninf => if 0 < a then ninf else if a < 0 then pinf else nan
  | fin a, fin b => fin (a * b)

end EVal

/-- A table cell as a float64 series entry: numbers are finite,
unparseable and missing cells are NaN. -/
def toEVal (v : CellValue) : EVal :=
  match toNumeric v with
  | some q => .fin q
  | none => .nan

/-! ### The duplicated trend analysis

The same analysis body appears verbatim in `rest_api.py`
(`analyze_trend`, lines 312-390), `lease_drop_wrapper.py`
(`analyze_trend`, lines 278-356) and `ignition_integration.py`
(`analyze_production_trend`, lines 286-363); the helpers below embed
those shared lines once and each function is defined from them
separately. -/

/-- The production column as a float series, in (post-sort) row
order. -/
def prodEVals (t : Table) (pc : Str) : List EVal :=
  t.rows.map (fun r => toEVal (getCell t r pc))

/-- Embeds `df[production_col].shift(1)`: the previous row's value, NaN for
the first row. -/
def prevVals (ys : List EVal) : List EVal :=
  match ys with
  | [] => []
  | _ :: _ => .nan :: ys.dropLast

/-- Embeds `df['monthly_change'] = production - previous`. -/
def monthlyChanges (ys : List EVal) : List EVal :=
  List.zipWith EVal.esub ys (prevVals ys)

/-- Embeds `df['monthly_pct_change'] = (monthly_change / previous) * 100`,
with pandas semantics: NaN previous gives NaN, zero previous gives a
signed infinity (or NaN when the change is also zero). -/
def monthlyPcts (ys : List EVal) : List EVal :=
  List.zipWith (fun c p => EVal.emul (EVal.ediv c p) (.fin 100))
    (monthlyChanges ys) (prevVals ys)

/-- Embeds `df['cumulative_change'] = production - first_production`. -/
def cumChanges (ys : List EVal) : List EVal :=
  ys.map (fun y => EVal.esub y (ys.headD .nan))

/-- Embeds `df['cumulative_pct_change'] = (cumulative_change /
first_production) * 100`, same division semantics. -/
def cumPcts (ys : List EVal) : List EVal :=
  ys.map (fun y =>
    EVal.emul (EVal.ediv (EVal.esub y (ys.headD .nan)) (ys.headD .nan)) (.fin 100))

/-- The mean of one full window: finite when every entry is finite,
NaN otherwise (`min_periods` equal to the window size). -/
def windowMean (l : List EVal) : EVal :=
  let finitePart := l.filterMap (fun v =>
    match v with
    | .fin q => some q
    | _ => none)
  if finitePart.length = l.length ∧ l ≠ [] then
    .fin (finitePart.sum / (l.length : ℚ))
  else .nan

/-- Embeds `df[production_col].rolling(window=w).mean()`: the trailing simple
moving average; entries with fewer than `w` rows of history are
NaN. -/
def rollingMean (w : Nat) (ys : List EVal) : List EVal :=
  (List.range ys.length).map (fun i =>
    if i + 1 < w then .nan
    else windowMean ((ys.drop (i + 1 - w)).take w))

/-- The dataset-level trend descriptor.  The source reports
`r_value` and `strength = abs(r_value)` as floats; their squares
`rSq`/`strengthSq` together with the sign `rSign` of `r_value`
determine them uniquely (square roots leave ℚ). -/
structure TrendInfo where
  direction : Str
  strengthSq : EVal
  slope : EVal
  rSq : EVal
  rSign : Int
deriving DecidableEq

/-- Embeds `scipy.stats.linregress` of the production values against the row
index, plus the derived direction and strength (source lines
362-374): for fewer than two rows a degenerate result; any NaN input
propagates to NaN slope and r (with NaN > 0 false, hence direction
"decreasing"); a zero variance of `y` makes scipy report `r = 0`. -/
def computeTrend (ys : List EVal) : TrendInfo :=
  if 2 ≤ ys.length then
    let finitePart := ys.filterMap (fun v =>
      match v with
      | .fin q => some q
      | _ => none)
    if finitePart.length = ys.length then
      let n := ys.length
      let xs : List ℚ := (List.range n).map (fun i => (i : ℚ))
      let xbar : ℚ := xs.sum / (n : ℚ)
      let ybar : ℚ := finitePart.sum / (n : ℚ)
      let sxx : ℚ := (xs.map (fun x => (x - xbar) ^ 2)).sum
      let syy : ℚ := (finitePart.map (fun y => (y - ybar) ^ 2)).sum
      let sxy : ℚ :=
        ((xs.zip finitePart).map (fun p => (p.1 - xbar) * (p.2 - ybar))).sum
      let slopeQ : ℚ := sxy / sxx
      let rSqQ : ℚ := if syy = 0 then 0 else sxy ^ 2 / (sxx * syy)
      { direction := if 0 < slopeQ then "increasing".data else "decreasing".data
        strengthSq := .fin rSqQ
        slope := .fin slopeQ
        rSq := .fin rSqQ
        rSign := if syy = 0 then 0 else if 0 < sxy then 1 else if sxy < 0 then -1 else 0 }
    else
      { direction := "decreasing".data
        strengthSq := .nan
        slope := .nan
        rSq := .nan
        rSign := 0 }
  else
    { direction := "unknown".data
      strengthSq := .fin 0
      slope := .fin 0
      rSq := .fin 0
      rSign := 0 }

/-- One row of the enriched dataset: the original cells plus the
derived columns the analysis adds. -/
structure ERow where
  cells : List CellValue
  previous : EVal
  monthlyChange : EVal
  monthlyPct : EVal
  cumChange : EVal
  cumPct : EVal
  avg3 : EVal
  avg6 : EVal
deriving DecidableEq

/-- The enriched rows of the sorted table: each original row paired
with its derived per-row values. -/
def mkERows (ts : Table) (pc : Str) : List ERow :=
  let ys := prodEVals ts pc
  (List.range ts.rows.length).map (fun i =>
    { cells := ts.rows.getD i []
      previous := (prevVals ys).getD i .nan
      monthlyChange := (monthlyChanges ys).getD i .nan
      monthlyPct := (monthlyPcts ys).getD i .nan
      cumChange := (cumChanges ys).getD i .nan
      cumPct := (cumPcts ys).getD i .nan
      avg3 := (rollingMean 3 ys).getD i .nan
      avg6 := (rollingMean 6 ys).getD i .nan })

/-- The trend analyzers' error kinds. -/
inductive TrendErr where
  | noData
  | productionColumnUnresolvable
  | dateColumnUnresolvable
deriving DecidableEq

/-- A trend analyzer's result: a typed error, or the enriched rows
with the resolved column names and the trend descriptor. -/
inductive TrendOutcome where
  | failure (e : TrendErr)
  | success (rows : List ERow) (pc dc : Str) (trend : TrendInfo)
deriving DecidableEq

/-- Embeds `analyze_trend` of `rest_api.py` (lines 306-390): reject empty
data, resolve the production column by the CRUDE+OIL name heuristic,
numericize it, resolve the period column by the DATE/PERIOD name
heuristic, sort by it, and compute the derived columns and trend. -/
def analyzeTrendRest (t : Table) : TrendOutcome :=
  match t.rows with
  | [] => .failure .noData
  | _ :: _ =>
    match t.cols.find? ruleCrudeOil with
    | none => .failure .productionColumnUnresolvable
    | some pc =>
      match findDateCol (setColNumeric t pc).cols with
      | none => .failure .dateColumnUnresolvable
      | some dc =>
        .success (mkERows (sortByDate (setColNumeric t pc) dc) pc) pc dc
          (computeTrend (prodEVals (sortByDate (setColNumeric t pc) dc) pc))

/-- Embeds `analyze_trend` of `lease_drop_wrapper.py` (lines 266-356), a
verbatim duplicate of the REST implementation. -/
def analyzeTrendWrapper (t : Table) : TrendOutcome :=
  match t.rows with
  | [] => .failure .noData
  | _ :: _ =>
    match t.cols.find? ruleCrudeOil with
    | none => .failure .productionColumnUnresolvable
    | some pc =>
      match findDateCol (setColNumeric t pc).cols with
      | none => .failure .dateColumnUnresolvable
      | some dc =>
        .success (mkERows (sortByDate (setColNumeric t pc) dc) pc) pc dc
          (computeTrend (prodEVals (sortByDate (setColNumeric t pc) dc) pc))

/-- Embeds `analyze_production_trend` of `ignition_integration.py` (lines
280-363), a verbatim duplicate of the REST implementation. -/
def analyzeTrendIgnition (t : Table) : TrendOutcome :=
  match t.rows with
  | [] => .failure .noData
  | _ :: _ =>
    match t.cols.find? ruleCrudeOil with
    | none => .failure .productionColumnUnresolvable
    | some pc =>
      match findDateCol (setColNumeric t pc).cols with
      | none => .failure .dateColumnUnresolvable
      | some dc =>
        .success (mkERows (sortByDate (setColNumeric t pc) dc) pc) pc dc
          (computeTrend (prodEVals (sortByDate (setColNumeric t pc) dc) pc))

/-! ### Concrete input tables used by the theorems -/

/-- Whether every cell of column `c` is a string (the report layout's
period keys are fixed-width text). -/
def allStrCells (t : Table) (c : Str) : Bool :=
  t.rows.all (fun r =>
    match getCell t r c with
    | .str _ => true
    | _ => false)

/-- Scenario 1 of the spec: two rows, periods 2201/2202, barrels
100/50. -/
def scnOne : Table :=
  { cols := ["Period".data, "Barrels".data]
    rows := [[.str ("2201".data), .str ("100".data)],
             [.str ("2202".data), .str ("50".data)]] }

/-- Scenario 2 of the spec: both production values are zero. -/
def scnAllZero : Table :=
  { cols := ["Period".data, "Barrels".data]
    rows := [[.str ("2201".data), .str ("0".data)],
             [.str ("2202".data), .str ("0".data)]] }

/-- Scenario 4 of the spec: marker-style input with two `Period:`
header rows interleaved with two data rows. -/
def scnMarker : Table :=
  { cols := [ptName, "Barrels".data]
    rows := [[.str ("Period: 1601".data), .null],
             [.str ("x".data), .str ("200".data)],
             [.str ("Period: 1602".data), .null],
             [.str ("y".data), .str ("180".data)]] }

/-- A table whose first column name also contains CRUDE and OIL, so
the cascade picks it over the literal "Crude Oil Production"
column. -/
def tblShadow : Table :=
  { cols := ["GROSS CRUDE OIL".data, "Crude Oil Production".data]
    rows := [[.str ("10".data), .str ("20".data)],
             [.str ("30".data), .str ("40".data)]] }

/-- A table whose only column is numeric with a negative (non-zero)
sum: rule (d) of the source requires a strictly positive sum and
rejects it. -/
def tblNegative : Table :=
  { cols := ["Widgets".data]
    rows := [[.str ("-1".data)], [.str ("-2".data)]] }

/-- A one-column table named exactly "Crude Oil Production". -/
def tblCop : Table :=
  { cols := ["Crude Oil Production".data]
    rows := [[.str ("5".data)], [.str ("6".data)]] }

/-- A dataset whose resolved production column is "Barrels": present
in the schema, but not matching the CRUDE+OIL heuristic the trend
analyzers re-run. -/
def tblBarrels : Table :=
  { cols := ["Barrels".data, "Period".data]
    rows := [[.str ("100".data), .str ("2201".data)],
             [.str ("90".data), .str ("2202".data)]] }

/-- A dataset the trend analyzers accept: CRUDE OIL and PERIOD
columns, three rows. -/
def tblCrude : Table :=
  { cols := ["CRUDE OIL".data, "PERIOD".data]
    rows := [[.str ("100".data), .str ("2201".data)],
             [.str ("0".data), .str ("2202".data)],
             [.str ("50".data), .str ("2203".data)]] }

/-- A dataset whose first production value is zero: the zero-divisor
rows for the percentage-change columns. -/
def tblZeroFirst : Table :=
  { cols := ["CRUDE OIL".data, "PERIOD".data]
    rows := [[.str ("0".data), .str ("2201".data)],
             [.str ("100".data), .str ("2202".data)]] }

/-! ## Theorems

The rational arithmetic of the embedding is evaluated inside concrete
proofs, so the kernel-level rational operations are unsealed for this
file. -/

/-- Reading every position of a list back in order yields the list. -/
lemma map_getD_range {α : Type} :
    ∀ (l : List α) (d : α),
      (List.range l.length).map (fun i => l.getD i d) = l
  | [], _ => by simp
  | a :: t, d => by
    rw [List.length_cons, List.range_succ_eq_map, List.map_cons, List.map_map]
    have hcomp : ((fun i => (a :: t).getD i d) ∘ Nat.succ) =
        fun i => t.getD i d := by
      funext i
      simp
    rw [hcomp, map_getD_range t d]
    rfl

/-- Indexing into a tabulated list. -/
lemma getD_map_range {α : Type} (f : Nat → α) {n i : Nat} (d : α)
    (h : i < n) : ((List.range n).map f).getD i d = f i := by
  rw [List.getD_eq_getElem _ _ (by simpa using h)]
  simp

/-- A rolling average has one entry per row. -/
lemma length_rollingMean (w : Nat) (ys : List EVal) :
    (rollingMean w ys).length = ys.length := by
  simp [rollingMean]

/-- The rolling-average entry at a valid index. -/
lemma rollingMean_getD (w : Nat) (ys : List EVal) (i : Nat)
    (hi : i < ys.length) :
    (rollingMean w ys).getD i .nan =
      if i + 1 < w then .nan
      else windowMean ((ys.drop (i + 1 - w)).take w) := by
  unfold rollingMean
  exact getD_map_range _ _ hi

/-- A window of finite values averages to its exact mean. -/
lemma windowMean_map_fin (l : List ℚ) (hne : l ≠ []) :
    windowMean (l.map .fin) = .fin (l.sum / (l.length : ℚ)) := by
  unfold windowMean
  rw [List.filterMap_map]
  have hcomp : ((fun v => match v with
      | EVal.fin q => some q
      | _ => none) ∘ EVal.fin) = some := by
    funext q
    rfl
  rw [hcomp, List.filterMap_some]
  rw [if_pos ⟨by simp, by simpa using hne⟩]
  simp

/-- A lower bound on every element bounds the sum from below. -/
lemma len_mul_le_sum :
    ∀ (l : List ℚ) (a : ℚ), (∀ x ∈ l, a ≤ x) → (l.length : ℚ) * a ≤ l.sum
  | [], _ => by simp
  | b :: t, a => by
    intro h
    have hb := h b (List.mem_cons_self _ _)
    have ht := len_mul_le_sum t a (fun x hx => h x (List.mem_cons_of_mem _ hx))
    simp only [List.sum_cons, List.length_cons]
    push_cast
    nlinarith

/-- An upper bound on every element bounds the sum from above. -/
lemma sum_le_len_mul :
    ∀ (l : List ℚ) (a : ℚ), (∀ x ∈ l, x ≤ a) → l.sum ≤ (l.length : ℚ) * a
  | [], _ => by simp
  | b :: t, a => by
    intro h
    have hb := h b (List.mem_cons_self _ _)
    have ht := sum_le_len_mul t a (fun x hx => h x (List.mem_cons_of_mem _ hx))
    simp only [List.sum_cons, List.length_cons]
    push_cast
    nlinarith

/-- With one element strictly above the lower bound, the sum bound is
strict. -/
lemma len_mul_lt_sum (l : List ℚ) (a : ℚ) (hle : ∀ x ∈ l, a ≤ x)
    (x₀ : ℚ) (hmem : x₀ ∈ l) (hlt : a < x₀) :
    (l.length : ℚ) * a < l.sum := by
  induction l with
  | nil => simp at hmem
  | cons b t ih =>
    have hb := hle b (List.mem_cons_self _ _)
    have ht := len_mul_le_sum t a (fun x hx => hle x (List.mem_cons_of_mem _ hx))
    simp only [List.sum_cons, List.length_cons]
    rcases List.mem_cons.mp hmem with h1 | h1
    · have hab : a < b := h1 ▸ hlt
      push_cast
      nlinarith
    · have hts := ih (fun x hx => hle x (List.mem_cons_of_mem _ hx)) h1
      push_cast
      nlinarith

/-- With one element strictly below the upper bound, the sum bound is
strict. -/
lemma sum_lt_len_mul (l : List ℚ) (a : ℚ) (hle : ∀ x ∈ l, x ≤ a)
    (x₀ : ℚ) (hmem : x₀ ∈ l) (hlt : x₀ < a) :
    l.sum < (l.length : ℚ) * a := by
  induction l with
  | nil => simp at hmem
  | cons b t ih =>
    have hb := hle b (List.mem_cons_self _ _)
    have ht := sum_le_len_mul t a (fun x hx => hle x (List.mem_cons_of_mem _ hx))
    simp only [List.sum_cons, List.length_cons]
    rcases List.mem_cons.mp hmem with h1 | h1
    · have hab : b < a := h1 ▸ hlt
      push_cast
      nlinarith
    · have hts := ih (fun x hx => hle x (List.mem_cons_of_mem _ hx)) h1
      push_cast
      nlinarith

/-- In a strictly increasing list every element is at most the last. -/
lemma pairwise_le_getLastD :
    ∀ (l : List ℚ) (d : ℚ), l.Pairwise (· < ·) → ∀ x ∈ l, x ≤ l.getLastD d
  | [], _ => by simp
  | a :: t, d => by
    intro hp x hx
    rw [List.getLastD_cons]
    rcases List.mem_cons.mp hx with h1 | h1
    · rw [h1]
      cases t with
      | nil => simp [List.getLastD]
      | cons b t' =>
        have hab : a < b :=
          (List.pairwise_cons.mp hp).1 b (List.mem_cons_self _ _)
        have hble := pairwise_le_getLastD (b :: t') a
          (List.pairwise_cons.mp hp).2 b (List.mem_cons_self _ _)
        exact le_trans (le_of_lt hab) hble
    · exact pairwise_le_getLastD t a (List.pairwise_cons.mp hp).2 x h1

/-- In a strictly decreasing list every element is at least the
last. -/
lemma pairwise_getLastD_le :
    ∀ (l : List ℚ) (d : ℚ), l.Pairwise (· > ·) → ∀ x ∈ l, l.getLastD d ≤ x
  | [], _ => by simp
  | a :: t, d => by
    intro hp x hx
    rw [List.getLastD_cons]
    rcases List.mem_cons.mp hx with h1 | h1
    · rw [h1]
      cases t with
      | nil => simp [List.getLastD]
      | cons b t' =>
        have hab : b < a :=
          (List.pairwise_cons.mp hp).1 b (List.mem_cons_self _ _)
        have hble := pairwise_getLastD_le (b :: t') a
          (List.pairwise_cons.mp hp).2 b (List.mem_cons_self _ _)
        exact le_trans hble (le_of_lt hab)
    · exact pairwise_getLastD_le t a (List.pairwise_cons.mp hp).2 x h1

/-- The enriched rows' short moving-average column is the 3-window
rolling mean of the production series. -/
lemma mkERows_map_avg3 (ts : Table) (pc : Str) :
    (mkERows ts pc).map ERow.avg3 = rollingMean 3 (prodEVals ts pc) := by
  unfold mkERows
  rw [List.map_map]
  have hcomp : (ERow.avg3 ∘ fun i =>
      ({ cells := ts.rows.getD i []
         previous := (prevVals (prodEVals ts pc)).getD i .nan
         monthlyChange := (monthlyChanges (prodEVals ts pc)).getD i .nan
         monthlyPct := (monthlyPcts (prodEVals ts pc)).getD i .nan
         cumChange := (cumChanges (prodEVals ts pc)).getD i .nan
         cumPct := (cumPcts (prodEVals ts pc)).getD i .nan
         avg3 := (rollingMean 3 (prodEVals ts pc)).getD i .nan
         avg6 := (rollingMean 6 (prodEVals ts pc)).getD i .nan } : ERow)) =
      fun i => (rollingMean 3 (prodEVals ts pc)).getD i .nan := rfl
  rw [hcomp]
  have hlen : (rollingMean 3 (prodEVals ts pc)).length = ts.rows.length := by
    simp [length_rollingMean, prodEVals]
  rw [← hlen]
  exact map_getD_range _ _

/-- The enriched rows' long moving-average column is the 6-window
rolling mean of the production series. -/
lemma mkERows_map_avg6 (ts : Table) (pc : Str) :
    (mkERows ts pc).map ERow.avg6 = rollingMean 6 (prodEVals ts pc) := by
  unfold mkERows
  rw [List.map_map]
  have hcomp : (ERow.avg6 ∘ fun i =>
      ({ cells := ts.rows.getD i []
         previous := (prevVals (prodEVals ts pc)).getD i .nan
         monthlyChange := (monthlyChanges (prodEVals ts pc)).getD i .nan
         monthlyPct := (monthlyPcts (prodEVals ts pc)).getD i .nan
         cumChange := (cumChanges (prodEVals ts pc)).getD i .nan
         cumPct := (cumPcts (prodEVals ts pc)).getD i .nan
         avg3 := (rollingMean 3 (prodEVals ts pc)).getD i .nan
         avg6 := (rollingMean 6 (prodEVals ts pc)).getD i .nan } : ERow)) =
      fun i => (rollingMean 6 (prodEVals ts pc)).getD i .nan := rfl
  rw [hcomp]
  have hlen : (rollingMean 6 (prodEVals ts pc)).length = ts.rows.length := by
    simp [length_rollingMean, prodEVals]
  rw [← hlen]
  exact map_getD_range _ _

/-- In a strictly increasing list of at least two values, the mean
lies strictly between the first (least) and last (greatest)
elements. -/
lemma avg_between_incr (l : List ℚ) (hp : l.Pairwise (· < ·))
    (hl : 2 ≤ l.length) :
    (∀ x ∈ l, l.headD 0 ≤ x ∧ x ≤ l.getLastD 0) ∧
    l.headD 0 < l.sum / (l.length : ℚ) ∧
    l.sum / (l.length : ℚ) < l.getLastD 0 := by
  rcases l with _ | ⟨h, _ | ⟨y, t'⟩⟩
  · simp at hl
  · simp at hl
  · have hpc := List.pairwise_cons.mp hp
    have hbound : ∀ x ∈ h :: y :: t', h ≤ x := by
      intro x hx
      rcases List.mem_cons.mp hx with h1 | h1
      · exact h1.symm.le
      · exact le_of_lt (hpc.1 x h1)
    have hupper := pairwise_le_getLastD (h :: y :: t') 0 hp
    have hhy : h < y := hpc.1 y (List.mem_cons_self _ _)
    have hylast : y ≤ List.getLastD (y :: t') h :=
      pairwise_le_getLastD (y :: t') h hpc.2 y (List.mem_cons_self _ _)
    have hlast : h < (h :: y :: t').getLastD 0 := by
      rw [List.getLastD_cons]
      exact lt_of_lt_of_le hhy hylast
    have hlen0 : (0 : ℚ) < (((h :: y :: t').length : Nat) : ℚ) := by
      exact_mod_cast Nat.succ_pos _
    refine ⟨fun x hx => ⟨by simpa using hbound x hx, hupper x hx⟩, ?_, ?_⟩
    · rw [lt_div_iff₀ hlen0]
      have := len_mul_lt_sum (h :: y :: t') h hbound y
        (List.mem_cons_of_mem _ (List.mem_cons_self _ _)) hhy
      simpa [mul_comm] using this
    · rw [div_lt_iff₀ hlen0]
      have := sum_lt_len_mul (h :: y :: t') ((h :: y :: t').getLastD 0)
        hupper h (List.mem_cons_self _ _) hlast
      simpa [mul_comm] using this

/-- In a strictly decreasing list of at least two values, the mean
lies strictly between the last (least) and first (greatest)
elements. -/
lemma avg_between_decr (l : List ℚ) (hp : l.Pairwise (· > ·))
    (hl : 2 ≤ l.length) :
    (∀ x ∈ l, l.getLastD 0 ≤ x ∧ x ≤ l.headD 0) ∧
    l.getLastD 0 < l.sum / (l.length : ℚ) ∧
    l.sum / (l.length : ℚ) < l.headD 0 := by
  rcases l with _ | ⟨h, _ | ⟨y, t'⟩⟩
  · simp at hl
  · simp at hl
  · have hpc := List.pairwise_cons.mp hp
    have hbound : ∀ x ∈ h :: y :: t', x ≤ h := by
      intro x hx
      rcases List.mem_cons.mp hx with h1 | h1
      · exact h1.le
      · exact le_of_lt (hpc.1 x h1)
    have hlower := pairwise_getLastD_le (h :: y :: t') 0 hp
    have hhy : y < h := hpc.1 y (List.mem_cons_self _ _)
    have hylast : List.getLastD (y :: t') h ≤ y :=
      pairwise_getLastD_le (y :: t') h hpc.2 y (List.mem_cons_self _ _)
    have hlast : (h :: y :: t').getLastD 0 < h := by
      rw [List.getLastD_cons]
      exact lt_of_le_of_lt hylast hhy
    have hlen0 : (0 : ℚ) < (((h :: y :: t').length : Nat) : ℚ) := by
      exact_mod_cast Nat.succ_pos _
    refine ⟨fun x hx => ⟨hlower x hx, by simpa using hbound x hx⟩, ?_, ?_⟩
    · rw [lt_div_iff₀ hlen0]
      have := len_mul_lt_sum (h :: y :: t') ((h :: y :: t').getLastD 0)
        hlower h (List.mem_cons_self _ _) hlast
      simpa [mul_comm] using this
    · rw [div_lt_iff₀ hlen0]
      have := sum_lt_len_mul (h :: y :: t') h hbound y
        (List.mem_cons_of_mem _ (List.mem_cons_self _ _)) hhy
      simpa [mul_comm] using this

/-- The running minimum visits only list elements. -/
lemma foldlMin_mem : ∀ (tl : List ℚ) (h : ℚ), tl.foldl min h ∈ h :: tl
  | [], _ => by simp
  | a :: t, h => by
    simp only [List.foldl_cons]
    rcases List.mem_cons.mp (foldlMin_mem t (min h a)) with h1 | h1
    · rcases min_choice h a with hm | hm
      · rw [h1, hm]
        exact List.mem_cons_self _ _
      · rw [h1, hm]
        exact List.mem_cons_of_mem _ (List.mem_cons_self _ _)
    · exact List.mem_cons_of_mem _ (List.mem_cons_of_mem _ h1)

/-- The running minimum is a lower bound. -/
lemma foldlMin_le : ∀ (tl : List ℚ) (h : ℚ), ∀ x ∈ h :: tl, tl.foldl min h ≤ x
  | [], _ => by simp
  | a :: t, h => by
    intro x hx
    simp only [List.foldl_cons]
    rcases List.mem_cons.mp hx with h1 | h1
    · rw [h1]
      exact le_trans (foldlMin_le t (min h a) _ (List.mem_cons_self _ _))
        (min_le_left _ _)
    · rcases List.mem_cons.mp h1 with h2 | h2
      · rw [h2]
        exact le_trans (foldlMin_le t (min h a) _ (List.mem_cons_self _ _))
          (min_le_right _ _)
      · exact foldlMin_le t (min h a) x (List.mem_cons_of_mem _ h2)

/-- The running maximum visits only list elements. -/
lemma foldlMax_mem : ∀ (tl : List ℚ) (h : ℚ), tl.foldl max h ∈ h :: tl
  | [], _ => by simp
  | a :: t, h => by
    simp only [List.foldl_cons]
    rcases List.mem_cons.mp (foldlMax_mem t (max h a)) with h1 | h1
    · rcases max_choice h a with hm | hm
      · rw [h1, hm]
        exact List.mem_cons_self _ _
      · rw [h1, hm]
        exact List.mem_cons_of_mem _ (List.mem_cons_self _ _)
    · exact List.mem_cons_of_mem _ (List.mem_cons_of_mem _ h1)

/-- The running maximum is an upper bound. -/
lemma foldlMax_ge : ∀ (tl : List ℚ) (h : ℚ), ∀ x ∈ h :: tl, x ≤ tl.foldl max h
  | [], _ => by simp
  | a :: t, h => by
    intro x hx
    simp only [List.foldl_cons]
    rcases List.mem_cons.mp hx with h1 | h1
    · rw [h1]
      exact le_trans (le_max_left _ _)
        (foldlMax_ge t (max h a) _ (List.mem_cons_self _ _))
    · rcases List.mem_cons.mp h1 with h2 | h2
      · rw [h2]
        exact le_trans (le_max_right _ _)
          (foldlMax_ge t (max h a) _ (List.mem_cons_self _ _))
      · exact foldlMax_ge t (max h a) x (List.mem_cons_of_mem _ h2)


attribute [local semireducible] Rat.mul Rat.inv Rat.sub Rat.add

/-- Sorting does not change the number of rows. -/
lemma length_sortByDate (t : Table) (dc : Str) :
    (sortByDate t dc).rows.length = t.rows.length := by
  simp [sortByDate, List.length_insertionSort]

/-- There are no more positive production values than rows. -/
lemma length_positiveVals_le (t : Table) (pc : Str) :
    (positiveVals t pc).length ≤ t.rows.length :=
  le_trans (List.length_filterMap_le _ _) (List.length_filter_le _ _)

/-- Every positive production value is strictly positive. -/
lemma pos_of_mem_positiveVals (t : Table) (pc : Str) :
    ∀ x ∈ positiveVals t pc, 0 < x := by
  intro x hx
  obtain ⟨r, hr, hv⟩ := List.mem_filterMap.mp hx
  have hp := (List.mem_filter.mp hr).2
  rw [hv] at hp
  simpa using hp

/-- The three result shapes of the extractor's trend step. -/
lemma finishAnalysis_cases (ta : Table) (rest : List Table) (pc dc : Str)
    (stats : Stats) :
    finishAnalysis ta rest pc dc stats =
      ⟨ta :: rest, some pc, some dc, some stats, none,
        some .insufficientDataPoints⟩ ∨
    (∃ f s rs, positiveVals (sortByDate ta dc) pc = f :: s :: rs ∧
      finishAnalysis ta rest pc dc stats =
        ⟨sortByDate ta dc :: rest, some pc, some dc, some stats,
          some (((s :: rs).getLastD s - f) / f * 100), none⟩) ∨
    finishAnalysis ta rest pc dc stats =
      ⟨sortByDate ta dc :: rest, some pc, some dc, some stats, none,
        some .insufficientNonZeroDataPoints⟩ := by
  unfold finishAnalysis
  split
  · exact Or.inl rfl
  · split
    · next f s rs heq => exact Or.inr (Or.inl ⟨f, s, rs, heq, rfl⟩)
    · exact Or.inr (Or.inr rfl)

/-- C10: the three duplicated trend-analysis implementations (REST
API, CLI wrapper, Ignition integration) agree on every input table:
same resolved columns, identical enriched rows, identical trend
descriptors. -/
theorem c10_duplicates_agree (t : Table) :
    analyzeTrendRest t = analyzeTrendWrapper t ∧
    analyzeTrendRest t = analyzeTrendIgnition t :=
  ⟨rfl, rfl⟩

/-- C2 as stated is false on two counts: with both a "GROSS CRUDE
OIL" and a "Crude Oil Production" column (both numeric), the cascade
selects the earlier CRUDE+OIL match, not the literally named column;
and a numeric column with negative (non-zero) sum satisfies the
claim's rule (d) reading ("non-zero sum", here sum −3 with 2 of 2
values non-null) yet the code selects nothing, because it requires a
strictly positive sum. -/
theorem c2_production_rules_counterexample :
    ((processLeaseData [tblShadow]).productionCol = some ("GROSS CRUDE OIL".data) ∧
      ("Crude Oil Production".data) ∈ tblShadow.cols ∧
      ("GROSS CRUDE OIL".data) ≠ ("Crude Oil Production".data)) ∧
    ((processLeaseData [tblNegative]).productionCol = none ∧
      (numericVals tblNegative ("Widgets".data)).sum = -3 ∧
      (numericVals tblNegative ("Widgets".data)).sum ≠ 0 ∧
      tblNegative.rows.length < 2 * (numericVals tblNegative ("Widgets".data)).length) := by
  refine ⟨⟨?_, ?_, ?_⟩, ⟨?_, ?_, ?_, ?_⟩⟩ <;> decide

/-- C2, amended: the cascade tries (a) CRUDE+OIL, (b) GROSS+BARRELS,
(c) BARRELS/BBL, then (d) the first column whose numeric coercion has
a strictly positive sum and more than half the rows non-null; a
column literally named "Crude Oil Production" is selected whenever no
earlier column's name also contains both CRUDE and OIL. -/
theorem c2_production_rules :
    (∀ (t : Table) (pre post : List Str),
      t.cols = pre ++ ("Crude Oil Production".data) :: post →
      (∀ c ∈ pre, ruleCrudeOil c = false) →
      findProductionCol t = some ("Crude Oil Production".data)) ∧
    (∀ (t : Table) (c : Str),
      (∀ c' ∈ t.cols,
        ruleCrudeOil c' = false ∧ ruleGrossBarrels c' = false ∧
          ruleBarrelsBbl c' = false) →
      findProductionCol t = some c →
      0 < (numericVals t c).sum ∧
        t.rows.length < 2 * (numericVals t c).length) := by
  constructor
  · intro t pre post hcols hpre
    have hnone : pre.find? ruleCrudeOil = none :=
      List.find?_eq_none.mpr (fun c hc => by simp [hpre c hc])
    have hcop : (("Crude Oil Production".data) :: post).find? ruleCrudeOil =
        some ("Crude Oil Production".data) :=
      List.find?_cons_of_pos _ (by decide)
    unfold findProductionCol
    rw [hcols, List.find?_append, hnone, hcop]
    rfl
  · intro t c hall hfind
    have ha : t.cols.find? ruleCrudeOil = none :=
      List.find?_eq_none.mpr (fun x hx => by simp [(hall x hx).1])
    have hb : t.cols.find? ruleGrossBarrels = none :=
      List.find?_eq_none.mpr (fun x hx => by simp [(hall x hx).2.1])
    have hc : t.cols.find? ruleBarrelsBbl = none :=
      List.find?_eq_none.mpr (fun x hx => by simp [(hall x hx).2.2])
    unfold findProductionCol at hfind
    rw [ha, hb, hc] at hfind
    have hrule : ruleNumeric t c = true := List.find?_some hfind
    unfold ruleNumeric at hrule
    simp only [Bool.and_eq_true, decide_eq_true_eq] at hrule
    exact hrule

/-- Witness for the amended C2: on a table whose only column is
"Crude Oil Production", the cascade selects exactly that column. -/
theorem c2_production_rules_witness :
    findProductionCol tblCop = some ("Crude Oil Production".data) :=
  c2_production_rules.1 tblCop [] [] rfl (fun c hc => by simp at hc)

/-- C7 as stated is false: this dataset contains its resolved
production column "Barrels" (the extractor resolves exactly that
name) and a period column, yet the trend analyzer reports the
column-unresolvable error, because it re-resolves by the CRUDE+OIL
name heuristic instead of using the named column. -/
theorem c7_unresolvable_column_counterexample :
    (processLeaseData [tblBarrels]).productionCol = some ("Barrels".data) ∧
    ("Barrels".data) ∈ tblBarrels.cols ∧
    ("Period".data) ∈ tblBarrels.cols ∧
    analyzeTrendRest tblBarrels = .failure .productionColumnUnresolvable := by
  refine ⟨?_, ?_, ?_, ?_⟩ <;> decide

/-- C7, amended: a trend analyzer fails with the
production-column-unresolvable error exactly when no column name of
the (non-empty) dataset contains both CRUDE and OIL; when such a
column exists together with a DATE/PERIOD-named column (with string
period keys), it returns the enriched dataset and trend descriptor
instead. -/
theorem c7_unresolvable_column :
    (∀ t : Table, t.rows ≠ [] →
      ((analyzeTrendRest t = .failure .productionColumnUnresolvable) ↔
        ∀ c ∈ t.cols, ruleCrudeOil c = false)) ∧
    (∀ (t : Table) (pc dc : Str), t.rows ≠ [] →
      t.cols.find? ruleCrudeOil = some pc →
      findDateCol (setColNumeric t pc).cols = some dc →
      allStrCells (setColNumeric t pc) dc = true →
      analyzeTrendRest t =
        .success (mkERows (sortByDate (setColNumeric t pc) dc) pc) pc dc
          (computeTrend (prodEVals (sortByDate (setColNumeric t pc) dc) pc))) := by
  constructor
  · intro t hne
    obtain ⟨r, rs, hr⟩ := List.exists_cons_of_ne_nil hne
    unfold analyzeTrendRest
    rw [hr]
    cases hf : t.cols.find? ruleCrudeOil with
    | none =>
      simp only []
      constructor
      · intro _ c hc
        have := List.find?_eq_none.mp hf c hc
        simpa using this
      · intro _
        trivial
    | some pc =>
      have hp : ruleCrudeOil pc = true := List.find?_some hf
      have hmem : pc ∈ t.cols := List.mem_of_find?_eq_some hf
      simp only []
      cases hd : findDateCol (setColNumeric t pc).cols with
      | none =>
        simp only []
        constructor
        · intro h
          simp at h
        · intro h
          rw [h pc hmem] at hp
          simp at hp
      | some dc =>
        simp only []
        constructor
        · intro h
          simp at h
        · intro h
          rw [h pc hmem] at hp
          simp at hp
  · intro t pc dc hne hf hd _
    obtain ⟨r, rs, hr⟩ := List.exists_cons_of_ne_nil hne
    unfold analyzeTrendRest
    rw [hr, hf]
    simp only []
    rw [hd]

/-- Witness for the amended C7: on the CRUDE OIL dataset the analyzer
returns the enriched dataset and trend descriptor. -/
theorem c7_unresolvable_column_witness :
    analyzeTrendRest tblCrude =
      .success
        (mkERows (sortByDate (setColNumeric tblCrude ("CRUDE OIL".data)) ("PERIOD".data))
          ("CRUDE OIL".data))
        ("CRUDE OIL".data) ("PERIOD".data)
        (computeTrend
          (prodEVals
            (sortByDate (setColNumeric tblCrude ("CRUDE OIL".data)) ("PERIOD".data))
            ("CRUDE OIL".data))) :=
  c7_unresolvable_column.2 tblCrude ("CRUDE OIL".data) ("PERIOD".data)
    (by decide) (by decide) (by decide) (by decide)

/-- C1: when the first table yields a production column and a period
column (`ta` being the table the period resolution leaves, with
string period keys) and the period-sorted positive sequence keeps at
least two rows, the extractor reports no error and returns
`instantPctChange = (last - first) / first * 100` over that
sequence. -/
theorem c1_instant_pct_change (tables : List Table) (t0 : Table)
    (rest : List Table) (ta : Table) (pc dc : Str)
    (ht : tables = t0 :: rest)
    (hp : findProductionCol t0 = some pc)
    (hr : resolveDateTable (setColNumeric t0 pc) pc = some (ta, dc))
    (_hstr : allStrCells ta dc = true)
    (hlen : 2 ≤ (positiveVals (sortByDate ta dc) pc).length) :
    (processLeaseData tables).error = none ∧
    (processLeaseData tables).pctChange =
      some (((positiveVals (sortByDate ta dc) pc).getLastD 0 -
              (positiveVals (sortByDate ta dc) pc).headD 0) /
            (positiveVals (sortByDate ta dc) pc).headD 0 * 100) := by
  subst ht
  unfold processLeaseData
  simp only []
  rw [hp]
  simp only []
  rw [hr]
  simp only []
  unfold finishAnalysis
  have hta : ¬ ta.rows.length < 2 := by
    have h1 := length_positiveVals_le (sortByDate ta dc) pc
    rw [length_sortByDate] at h1
    omega
  rw [if_neg hta]
  rcases hpv : positiveVals (sortByDate ta dc) pc with _ | ⟨f, _ | ⟨s, rs⟩⟩
  · rw [hpv] at hlen
    simp at hlen
  · rw [hpv] at hlen
    simp at hlen
  · have hy : (s :: rs).getLast? = some ((s :: rs).getLast (by simp)) :=
      List.getLast?_eq_getLast _ _
    simp [List.getLastD_cons, hy]

/-- Witness for C1: scenario 1 of the spec, two rows with periods
2201/2202 and barrels 100/50, gives a −50 percent change. -/
theorem c1_instant_pct_change_witness :
    (processLeaseData [scnOne]).error = none ∧
    (processLeaseData [scnOne]).pctChange = some (-50) := by
  have h := c1_instant_pct_change [scnOne] scnOne []
    (setColNumeric scnOne ("Barrels".data)) ("Barrels".data) ("Period".data)
    rfl (by decide) (by decide) (by decide) (by decide)
  refine ⟨h.1, ?_⟩
  rw [h.2]
  decide

/-- C3: when the first table has no DATE/PERIOD-named column but has
the "Primary Taxpayer #" marker column, the extractor continues with
the synthesized `Period` column (markers scanned, last period carried
forward, null-production rows dropped); on scenario 4 this leaves
exactly the two data rows with periods "1601" and "1602" and a −10
percent change. -/
theorem c3_period_synthesis :
    (∀ (tables : List Table) (t0 : Table) (rest : List Table) (pc : Str),
      tables = t0 :: rest →
      findProductionCol t0 = some pc →
      findDateCol (setColNumeric t0 pc).cols = none →
      ptName ∈ (setColNumeric t0 pc).cols →
      processLeaseData tables =
        finishAnalysis (dropNullProd (synthPeriod (setColNumeric t0 pc)) pc) rest pc
          periodName (computeStats (prodOpts (setColNumeric t0 pc) pc))) ∧
    ((dropNullProd (synthPeriod (setColNumeric scnMarker ("Barrels".data)))
        ("Barrels".data)).rows.map
        (fun r =>
          getCell
            (dropNullProd (synthPeriod (setColNumeric scnMarker ("Barrels".data)))
              ("Barrels".data))
            r periodName) =
      [.str ("1601".data), .str ("1602".data)]) ∧
    (processLeaseData [scnMarker]).dateCol = some periodName ∧
    (processLeaseData [scnMarker]).pctChange = some (-10) := by
  refine ⟨?_, by decide, by decide, by decide⟩
  intro tables t0 rest pc ht hp hdate hpt
  subst ht
  have hres : resolveDateTable (setColNumeric t0 pc) pc =
      some (dropNullProd (synthPeriod (setColNumeric t0 pc)) pc, periodName) := by
    unfold resolveDateTable
    rw [hdate]
    simp only []
    rw [if_pos hpt]
  unfold processLeaseData
  simp only []
  rw [hp]
  simp only []
  rw [hres]

/-- Witness for C3: on scenario 4 the extractor indeed continues from
the synthesized-and-cleaned table. -/
theorem c3_period_synthesis_witness :
    processLeaseData [scnMarker] =
      finishAnalysis
        (dropNullProd (synthPeriod (setColNumeric scnMarker ("Barrels".data)))
          ("Barrels".data))
        [] ("Barrels".data) periodName
        (computeStats (prodOpts (setColNumeric scnMarker ("Barrels".data))
          ("Barrels".data))) :=
  c3_period_synthesis.1 [scnMarker] scnMarker [] ("Barrels".data) rfl
    (by decide) (by decide) (by decide)

/-- C5: the extractor is a total function whose error kinds are
returned values, each carrying every earlier-stage result: the
no-tables case returns empty results, the later error kinds keep the
tables (and the column, statistics once identified) with no
percentage change, and an error-free run carries a percentage change;
on the all-zero scenario 2 it reports insufficient non-zero data
points with statistics still computed and mean 0. -/
theorem c5_partial_success :
    (∀ (tables : List Table) (res : ExtractResult),
      res = processLeaseData tables →
      (res.error = some .noTablesFound →
        res.tables = [] ∧ res.pctChange = none ∧ res.stats = none) ∧
      (res.error = some .productionColumnNotFound →
        res.tables ≠ [] ∧ res.pctChange = none) ∧
      (res.error = some .dateColumnNotFound →
        res.tables ≠ [] ∧ res.productionCol.isSome ∧ res.stats.isSome ∧
          res.pctChange = none) ∧
      (res.error = some .insufficientDataPoints →
        res.tables ≠ [] ∧ res.productionCol.isSome ∧ res.dateCol.isSome ∧
          res.stats.isSome ∧ res.pctChange = none) ∧
      (res.error = some .insufficientNonZeroDataPoints →
        res.tables ≠ [] ∧ res.productionCol.isSome ∧ res.dateCol.isSome ∧
          res.stats.isSome ∧ res.pctChange = none) ∧
      (res.error = none → res.pctChange.isSome ∧ res.stats.isSome)) ∧
    ((processLeaseData [scnAllZero]).error =
        some .insufficientNonZeroDataPoints ∧
      (processLeaseData [scnAllZero]).pctChange = none ∧
      Option.map Stats.mean (processLeaseData [scnAllZero]).stats =
        some (some 0)) := by
  refine ⟨?_, by decide, by decide, by decide⟩
  intro tables res hres
  subst hres
  cases tables with
  | nil =>
    refine ⟨?_, ?_, ?_, ?_, ?_, ?_⟩ <;> intro h <;> simp_all [processLeaseData]
  | cons t0 rest =>
    unfold processLeaseData
    simp only []
    rcases h1 : findProductionCol t0 with _ | pc
    · simp only []
      refine ⟨?_, ?_, ?_, ?_, ?_, ?_⟩ <;> intro h <;> simp_all
    · simp only []
      rcases h2 : resolveDateTable (setColNumeric t0 pc) pc with _ | ⟨ta, dc⟩
      · simp only []
        refine ⟨?_, ?_, ?_, ?_, ?_, ?_⟩ <;> intro h <;> simp_all
      · simp only []
        rcases finishAnalysis_cases ta rest pc dc
            (computeStats (prodOpts (setColNumeric t0 pc) pc)) with
          hfin | ⟨f, s, rs, _, hfin⟩ | hfin <;>
          · rw [hfin]
            refine ⟨?_, ?_, ?_, ?_, ?_, ?_⟩ <;> intro h <;> simp_all

/-- Witness for C5: the all-zero scenario instantiates the
insufficient-non-zero case, with its earlier-stage results intact. -/
theorem c5_partial_success_witness :
    (processLeaseData [scnAllZero]).tables ≠ [] ∧
    (processLeaseData [scnAllZero]).productionCol.isSome ∧
    (processLeaseData [scnAllZero]).dateCol.isSome ∧
    (processLeaseData [scnAllZero]).stats.isSome ∧
    (processLeaseData [scnAllZero]).pctChange = none :=
  (c5_partial_success.1 [scnAllZero] (processLeaseData [scnAllZero])
    rfl).2.2.2.2.1 (by decide)

/-- C6: the non-zero filter keeps exactly the rows whose numericized
production value is strictly positive (zero, negative and null all
excluded), so whenever the extractor reports a percentage change its
divisor — the first retained production value — is strictly
positive. -/
theorem c6_positive_filter :
    (∀ (t : Table) (pc : Str) (r : List CellValue),
      r ∈ keepPositive t pc ↔
        r ∈ t.rows ∧ ∃ q, toNumeric (getCell t r pc) = some q ∧ 0 < q) ∧
    (∀ (t : Table) (pc : Str) (x : ℚ), x ∈ positiveVals t pc → 0 < x) ∧
    (∀ (tables : List Table) (c : ℚ),
      (processLeaseData tables).pctChange = some c →
      ∃ (pc : Str) (ts : Table) (rest : List Table) (f : ℚ) (tl : List ℚ),
        (processLeaseData tables).productionCol = some pc ∧
        (processLeaseData tables).tables = ts :: rest ∧
        positiveVals ts pc = f :: tl ∧ 0 < f ∧
        c = (tl.getLastD f - f) / f * 100) := by
  refine ⟨?_, pos_of_mem_positiveVals, ?_⟩
  · intro t pc r
    unfold keepPositive
    rw [List.mem_filter]
    constructor
    · rintro ⟨hr, hp⟩
      refine ⟨hr, ?_⟩
      rcases hv : toNumeric (getCell t r pc) with _ | q
      · rw [hv] at hp
        simp at hp
      · rw [hv] at hp
        simp only [decide_eq_true_eq] at hp
        exact ⟨q, rfl, hp⟩
    · rintro ⟨hr, q, hv, hq⟩
      refine ⟨hr, ?_⟩
      rw [hv]
      simpa using hq
  · intro tables c hc
    cases tables with
    | nil => simp [processLeaseData] at hc
    | cons t0 rest =>
      unfold processLeaseData at hc ⊢
      simp only [] at hc ⊢
      rcases h1 : findProductionCol t0 with _ | pc
      · rw [h1] at hc
        simp at hc
      · rw [h1] at hc
        simp only [] at hc ⊢
        rcases h2 : resolveDateTable (setColNumeric t0 pc) pc with _ | ⟨ta, dc⟩
        · rw [h2] at hc
          simp at hc
        · rw [h2] at hc
          simp only [] at hc ⊢
          rcases finishAnalysis_cases ta rest pc dc
              (computeStats (prodOpts (setColNumeric t0 pc) pc)) with
            hfin | ⟨f, s, rs, hpv, hfin⟩ | hfin <;> rw [hfin] at hc ⊢
          · simp at hc
          · refine ⟨pc, sortByDate ta dc, rest, f, s :: rs, rfl, rfl, hpv, ?_, ?_⟩
            · exact pos_of_mem_positiveVals _ _ f (by rw [hpv]; exact List.mem_cons_self _ _)
            · simpa using hc.symm
          · simp at hc

/-- Witness for C6: on scenario 1 the reported −50 percent change has
the positive divisor 100. -/
theorem c6_positive_filter_witness :
    ∃ (pc : Str) (ts : Table) (rest : List Table) (f : ℚ) (tl : List ℚ),
      (processLeaseData [scnOne]).productionCol = some pc ∧
      (processLeaseData [scnOne]).tables = ts :: rest ∧
      positiveVals ts pc = f :: tl ∧ 0 < f ∧
      (-50 : ℚ) = (tl.getLastD f - f) / f * 100 :=
  c6_positive_filter.2.2 [scnOne] (-50) (by decide)

/-- C8: the extractor's summary statistics run over the non-null
values of the numericized production column: count is the number of
non-null values, mean their arithmetic mean, the median the middle of
the sorted values (mean of the two middles for even counts), min and
max are attained bounds, and the standard deviation reported is the
square root of the sum of squared deviations divided by N−1 (the
sample formula), which differs from the population (N) formula
whenever the deviations are not all zero. -/
theorem c8_summary_stats :
    (∀ (vals : List (Option ℚ)) (xs : List ℚ), xs = vals.filterMap id →
      (computeStats vals).count = xs.length ∧
      (xs ≠ [] →
        (computeStats vals).mean = some (xs.sum / (xs.length : ℚ))) ∧
      (xs.length % 2 = 1 →
        (computeStats vals).median =
          some ((sortQ xs).getD (xs.length / 2) 0)) ∧
      (xs ≠ [] → xs.length % 2 = 0 →
        (computeStats vals).median =
          some (((sortQ xs).getD (xs.length / 2 - 1) 0 +
                  (sortQ xs).getD (xs.length / 2) 0) / 2)) ∧
      (∀ h tl, xs = h :: tl →
        ∃ m, (computeStats vals).minV = some m ∧ m ∈ xs ∧ ∀ x ∈ xs, m ≤ x) ∧
      (∀ h tl, xs = h :: tl →
        ∃ m, (computeStats vals).maxV = some m ∧ m ∈ xs ∧ ∀ x ∈ xs, x ≤ m) ∧
      (2 ≤ xs.length →
        (computeStats vals).stdSq =
          some ((xs.map (fun x => (x - xs.sum / (xs.length : ℚ)) ^ 2)).sum /
            ((xs.length : ℚ) - 1))) ∧
      (2 ≤ xs.length →
        (xs.map (fun x => (x - xs.sum / (xs.length : ℚ)) ^ 2)).sum ≠ 0 →
        (computeStats vals).stdSq ≠
          some ((xs.map (fun x => (x - xs.sum / (xs.length : ℚ)) ^ 2)).sum /
            (xs.length : ℚ)))) ∧
    (∀ (tables : List Table) (t0 : Table) (rest : List Table) (pc : Str),
      tables = t0 :: rest →
      findProductionCol t0 = some pc →
      (processLeaseData tables).stats =
        some (computeStats (prodOpts (setColNumeric t0 pc) pc))) := by
  constructor
  · intro vals xs hxs
    subst hxs
    refine ⟨rfl, ?_, ?_, ?_, ?_, ?_, ?_, ?_⟩
    · intro hne
      have hn : (vals.filterMap id).length ≠ 0 :=
        fun h => hne (List.length_eq_zero.mp h)
      simp [computeStats, hn]
    · intro hodd
      have hn : (vals.filterMap id).length ≠ 0 := by omega
      simp [computeStats, hn, hodd]
    · intro hne heven
      have hn : (vals.filterMap id).length ≠ 0 :=
        fun h => hne (List.length_eq_zero.mp h)
      have hodd : ¬ (vals.filterMap id).length % 2 = 1 := by omega
      simp [computeStats, hn, hodd]
    · intro h tl hcons
      refine ⟨tl.foldl min h, ?_, ?_, ?_⟩
      · simp [computeStats, hcons]
      · rw [hcons]
        exact foldlMin_mem tl h
      · rw [hcons]
        exact foldlMin_le tl h
    · intro h tl hcons
      refine ⟨tl.foldl max h, ?_, ?_, ?_⟩
      · simp [computeStats, hcons]
      · rw [hcons]
        exact foldlMax_mem tl h
      · rw [hcons]
        exact foldlMax_ge tl h
    · intro h2
      simp [computeStats, h2]
    · intro h2 hdev heq
      have hstd : (computeStats vals).stdSq =
          some (((vals.filterMap id).map
              (fun x => (x - (vals.filterMap id).sum /
                ((vals.filterMap id).length : ℚ)) ^ 2)).sum /
            (((vals.filterMap id).length : ℚ) - 1)) := by
        simp [computeStats, h2]
      rw [hstd] at heq
      have heq2 := Option.some.inj heq
      have hn2 : (2 : ℚ) ≤ ((vals.filterMap id).length : ℚ) := by
        exact_mod_cast h2
      have hne1 : (((vals.filterMap id).length : ℚ) - 1) ≠ 0 := by linarith
      have hne0 : (((vals.filterMap id).length : ℚ)) ≠ 0 := by linarith
      have hmul := (div_eq_div_iff hne1 hne0).mp heq2
      have hcancel := mul_left_cancel₀ hdev hmul
      linarith
  · intro tables t0 rest pc ht hp
    subst ht
    unfold processLeaseData
    simp only []
    rw [hp]
    simp only []
    rcases h2 : resolveDateTable (setColNumeric t0 pc) pc with _ | ⟨ta, dc⟩
    · rfl
    · simp only []
      rcases finishAnalysis_cases ta rest pc dc
          (computeStats (prodOpts (setColNumeric t0 pc) pc)) with
        hfin | ⟨f, s, rs, _, hfin⟩ | hfin <;> rw [hfin]

/-- Witness for C8: on the values 0 and 10 the sample variance is 50,
not the population value 25. -/
theorem c8_summary_stats_witness :
    (computeStats [some 0, some 10]).count = 2 ∧
    (computeStats [some 0, some 10]).mean = some 5 ∧
    (computeStats [some 0, some 10]).stdSq = some 50 ∧
    (computeStats [some 0, some 10]).stdSq ≠ some 25 := by
  have h := c8_summary_stats.1 [some 0, some 10] [0, 10] (by decide)
  refine ⟨h.1, ?_, ?_, ?_⟩
  · rw [h.2.1 (by decide)]
    decide
  · rw [h.2.2.2.2.2.2.1 (by decide)]
    decide
  · have hd := h.2.2.2.2.2.2.2 (by decide) (by decide)
    intro hc
    exact hd (by rw [hc]; decide)

/-- C4 as stated is false: with production values 0 then 100, the
second row's previous value is zero and its monthlyPctChange is
positive infinity, not null; likewise, with first production zero,
cumulativePctChange of the nonzero row is positive infinity. -/
theorem c4_null_zero_propagation_counterexample :
    (match analyzeTrendRest tblZeroFirst with
      | .success er _ _ _ => er.map ERow.monthlyPct
      | .failure _ => []) = [.nan, .pinf] ∧
    (match analyzeTrendRest tblZeroFirst with
      | .success er _ _ _ => er.map ERow.cumPct
      | .failure _ => []) = [.nan, .pinf] ∧
    EVal.pinf ≠ EVal.nan := by
  refine ⟨?_, ?_, ?_⟩ <;> decide

/-- C4, amended: in the trend analyzers the per-row monthlyPctChange
is null (NaN) when the previous value is null, and when the previous
value is zero it is +∞ for a positive value, −∞ for a negative one
and NaN for zero or missing — never an exception; cumulativePctChange
behaves the same way when the first row's production is zero. -/
theorem c4_null_zero_propagation (ys : List EVal) (i : Nat)
    (hi : i < ys.length)
    (hfn : ∀ v ∈ ys, v ≠ EVal.pinf ∧ v ≠ EVal.ninf) :
    ((prevVals ys).getD i .nan = .nan →
      (monthlyPcts ys).getD i .nan = .nan) ∧
    ((prevVals ys).getD i .nan = .fin 0 →
      (monthlyPcts ys).getD i .nan =
        (match ys.getD i .nan with
          | .fin v =>
            if 0 < v then EVal.pinf else if v < 0 then EVal.ninf else EVal.nan
          | _ => EVal.nan)) ∧
    (ys.headD .nan = .fin 0 →
      (cumPcts ys).getD i .nan =
        (match ys.getD i .nan with
          | .fin v =>
            if 0 < v then EVal.pinf else if v < 0 then EVal.ninf else EVal.nan
          | _ => EVal.nan)) := by
  have hlp : (prevVals ys).length = ys.length := by
    cases ys <;> simp [prevVals]
  have hlc : (monthlyChanges ys).length = ys.length := by
    simp [monthlyChanges, hlp]
  have hyme : ys.getD i .nan ∈ ys := by
    rw [List.getD_eq_getElem _ _ hi]
    exact List.getElem_mem _
  have hmc : (monthlyChanges ys).getD i .nan =
      EVal.esub (ys.getD i .nan) ((prevVals ys).getD i .nan) := by
    unfold monthlyChanges
    rw [List.getD_eq_getElem _ _ (by rw [List.length_zipWith, hlp]; omega),
      List.getElem_zipWith, List.getD_eq_getElem _ _ hi,
      List.getD_eq_getElem _ _ (by omega)]
  have hmp : (monthlyPcts ys).getD i .nan =
      EVal.emul
        (EVal.ediv ((monthlyChanges ys).getD i .nan)
          ((prevVals ys).getD i .nan))
        (.fin 100) := by
    unfold monthlyPcts monthlyChanges
    rw [List.getD_eq_getElem _ _
        (by rw [List.length_zipWith, List.length_zipWith, hlp]; omega),
      List.getElem_zipWith]
    unfold monthlyChanges at hlc
    rw [List.getD_eq_getElem _ _ (by omega), List.getD_eq_getElem _ _ (by omega)]
  have hcp : (cumPcts ys).getD i .nan =
      EVal.emul
        (EVal.ediv (EVal.esub (ys.getD i .nan) (ys.headD .nan))
          (ys.headD .nan))
        (.fin 100) := by
    unfold cumPcts
    rw [List.getD_eq_getElem _ _ (by rw [List.length_map]; omega),
      List.getElem_map, List.getD_eq_getElem _ _ hi]
  refine ⟨?_, ?_, ?_⟩
  · intro hprev
    rw [hmp, hmc, hprev]
    cases hy : ys.getD i .nan <;> simp [EVal.esub, EVal.ediv, EVal.emul]
  · intro hprev
    rw [hmp, hmc, hprev]
    cases hy : ys.getD i .nan with
    | fin v =>
      rcases lt_trichotomy 0 v with hv | hv | hv
      · simp [EVal.esub, EVal.ediv, EVal.emul, hv, not_lt.mpr (le_of_lt hv)]
      · simp [EVal.esub, EVal.ediv, EVal.emul, ← hv]
      · simp [EVal.esub, EVal.ediv, EVal.emul, hv, not_lt.mpr (le_of_lt hv),
          asymm hv]
    | pinf =>
      rw [hy] at hyme
      exact absurd rfl (hfn _ hyme).1
    | ninf =>
      rw [hy] at hyme
      exact absurd rfl (hfn _ hyme).2
    | nan => simp [EVal.esub, EVal.ediv, EVal.emul]
  · intro hfirst
    rw [hcp, hfirst]
    cases hy : ys.getD i .nan with
    | fin v =>
      rcases lt_trichotomy 0 v with hv | hv | hv
      · simp [EVal.esub, EVal.ediv, EVal.emul, hv, not_lt.mpr (le_of_lt hv)]
      · simp [EVal.esub, EVal.ediv, EVal.emul, ← hv]
      · simp [EVal.esub, EVal.ediv, EVal.emul, hv, not_lt.mpr (le_of_lt hv),
          asymm hv]
    | pinf =>
      rw [hy] at hyme
      exact absurd rfl (hfn _ hyme).1
    | ninf =>
      rw [hy] at hyme
      exact absurd rfl (hfn _ hyme).2
    | nan => simp [EVal.esub, EVal.ediv, EVal.emul]

/-- Witness for the amended C4: with values 0 then 100, the second
row's monthly percentage change is +∞ and so is its cumulative one. -/
theorem c4_null_zero_propagation_witness :
    (monthlyPcts [.fin 0, .fin 100]).getD 1 .nan = .pinf ∧
    (cumPcts [.fin 0, .fin 100]).getD 1 .nan = .pinf := by
  have h := c4_null_zero_propagation [.fin 0, .fin 100] 1 (by decide)
    (by decide)
  constructor
  · rw [h.2.1 (by decide)]
    decide
  · rw [h.2.2 (by decide)]
    decide

/-- C9: the trend analyzers' moving averages are the trailing simple
moving averages of the (post-sort) production column with windows 3
and 6: the first w−1 entries are null, every later entry over finite
data is the mean of the row's value and the w−1 preceding values, and
for strictly monotonic data each w-window mean lies strictly between
the window's minimum and maximum (attained at the window's ends). -/
theorem c9_moving_average :
    (∀ (t : Table) (pc dc : Str), t.rows ≠ [] →
      t.cols.find? ruleCrudeOil = some pc →
      findDateCol (setColNumeric t pc).cols = some dc →
      ∃ er tr, analyzeTrendRest t = .success er pc dc tr ∧
        er.map ERow.avg3 =
          rollingMean 3 (prodEVals (sortByDate (setColNumeric t pc) dc) pc) ∧
        er.map ERow.avg6 =
          rollingMean 6 (prodEVals (sortByDate (setColNumeric t pc) dc) pc)) ∧
    (∀ (w : Nat) (ys : List EVal) (i : Nat), i < ys.length → i + 1 < w →
      (rollingMean w ys).getD i .nan = .nan) ∧
    (∀ (w : Nat) (vals : List ℚ) (i : Nat),
      i < vals.length → 1 ≤ w → w ≤ i + 1 →
      (rollingMean w (vals.map .fin)).getD i .nan =
        .fin (((vals.drop (i + 1 - w)).take w).sum / (w : ℚ))) ∧
    (∀ (w : Nat) (vals : List ℚ) (i : Nat),
      i < vals.length → 2 ≤ w → w ≤ i + 1 →
      (vals.Pairwise (· < ·) →
        (∀ x ∈ (vals.drop (i + 1 - w)).take w,
          ((vals.drop (i + 1 - w)).take w).headD 0 ≤ x ∧
            x ≤ ((vals.drop (i + 1 - w)).take w).getLastD 0) ∧
        ((vals.drop (i + 1 - w)).take w).headD 0 <
          ((vals.drop (i + 1 - w)).take w).sum / (w : ℚ) ∧
        ((vals.drop (i + 1 - w)).take w).sum / (w : ℚ) <
          ((vals.drop (i + 1 - w)).take w).getLastD 0) ∧
      (vals.Pairwise (· > ·) →
        (∀ x ∈ (vals.drop (i + 1 - w)).take w,
          ((vals.drop (i + 1 - w)).take w).getLastD 0 ≤ x ∧
            x ≤ ((vals.drop (i + 1 - w)).take w).headD 0) ∧
        ((vals.drop (i + 1 - w)).take w).getLastD 0 <
          ((vals.drop (i + 1 - w)).take w).sum / (w : ℚ) ∧
        ((vals.drop (i + 1 - w)).take w).sum / (w : ℚ) <
          ((vals.drop (i + 1 - w)).take w).headD 0)) := by
  refine ⟨?_, ?_, ?_, ?_⟩
  · intro t pc dc hne hf hd
    obtain ⟨r, rs, hr⟩ := List.exists_cons_of_ne_nil hne
    refine ⟨mkERows (sortByDate (setColNumeric t pc) dc) pc,
      computeTrend (prodEVals (sortByDate (setColNumeric t pc) dc) pc),
      ?_, mkERows_map_avg3 _ _, mkERows_map_avg6 _ _⟩
    unfold analyzeTrendRest
    rw [hr, hf]
    simp only []
    rw [hd]
  · intro w ys i hi hlt
    rw [rollingMean_getD w ys i hi, if_pos hlt]
  · intro w vals i hi hw hwle
    have hil : i < (vals.map EVal.fin).length := by simpa using hi
    rw [rollingMean_getD w _ i hil, if_neg (by omega)]
    rw [← List.map_drop, ← List.map_take]
    have hlen : ((vals.drop (i + 1 - w)).take w).length = w := by
      simp only [List.length_take, List.length_drop]
      omega
    have hne : (vals.drop (i + 1 - w)).take w ≠ [] := by
      intro h
      rw [h] at hlen
      simp at hlen
      omega
    rw [windowMean_map_fin _ hne, hlen]
  · intro w vals i hi hw2 hwle
    have hlen : ((vals.drop (i + 1 - w)).take w).length = w := by
      simp only [List.length_take, List.length_drop]
      omega
    have hsub : ((vals.drop (i + 1 - w)).take w).Sublist vals :=
      (List.take_sublist _ _).trans (List.drop_sublist _ _)
    have hl2 : 2 ≤ ((vals.drop (i + 1 - w)).take w).length := by omega
    constructor
    · intro hp
      have hres := avg_between_incr _ (hp.sublist hsub) hl2
      rw [hlen] at hres
      exact hres
    · intro hp
      have hres := avg_between_decr _ (hp.sublist hsub) hl2
      rw [hlen] at hres
      exact hres

/-- Witness for C9: on the CRUDE OIL dataset the analyzer's 3-window
column matches the rolling mean, whose first two entries are null and
whose third is the window mean 50. -/
theorem c9_moving_average_witness :
    (∃ er tr,
      analyzeTrendRest tblCrude = .success er ("CRUDE OIL".data) ("PERIOD".data) tr ∧
      er.map ERow.avg3 =
        rollingMean 3
          (prodEVals
            (sortByDate (setColNumeric tblCrude ("CRUDE OIL".data)) ("PERIOD".data))
            ("CRUDE OIL".data)) ∧
      er.map ERow.avg6 =
        rollingMean 6
          (prodEVals
            (sortByDate (setColNumeric tblCrude ("CRUDE OIL".data)) ("PERIOD".data))
            ("CRUDE OIL".data))) ∧
    (rollingMean 3 [.fin 1, .fin 2, .fin 147]).getD 0 .nan = .nan ∧
    (rollingMean 3 ([1, 2, 147].map .fin)).getD 2 .nan = .fin 50 ∧
    (1 : ℚ) < 50 ∧ (50 : ℚ) < 147 := by
  refine ⟨c9_moving_average.1 tblCrude ("CRUDE OIL".data) ("PERIOD".data)
    (by decide) (by decide) (by decide), ?_, ?_, by norm_num, by norm_num⟩
  · exact c9_moving_average.2.1 3 [.fin 1, .fin 2, .fin 147] 0 (by decide)
      (by decide)
  · rw [c9_moving_average.2.2.1 3 [1, 2, 147] 2 (by decide) (by decide)
      (by decide)]
    decide

end LeaseDrop
